import Mathlib

/-!
Shallow embedding of the RSVP application core (src/app.py): the form
validator `validate_form`, the CSV-backed record store (`ensure_csv`,
`read_rsvps`, `write_rsvp`) and the listing/export handlers (`list_rsvps`,
`download_rsvps`), together with proofs about them.

Modelling conventions:
* Python strings are Lean `String`s; `str.strip` and the regex class `\s`
  are modelled over the ASCII whitespace characters (non-ASCII Unicode
  whitespace is not modelled, none of the data of interest contains it).
* `int(s)` is modelled by `pyIntParse`, covering ASCII decimal literals
  with optional surrounding whitespace, an optional sign, and underscore
  digit separators, returning `none` where Python raises `ValueError`.
* The CSV file is modelled at row granularity: a store is `none` (file
  absent) or `some rows` where each row is the list of its field strings.
  Writing (`open("a", newline="")`) stores field values verbatim, and the
  `csv` module's quoting/unquoting is mutually inverse at row granularity;
  but reading opens the file without `newline=""`, in universal-newlines
  text mode, which rewrites every `\r\n` and lone `\r` of the stream to
  `\n` before the `csv` parser sees it. Quote and comma characters
  separate fields in the stream, so no `\r\n` pair spans a field
  boundary and the translation acts per field: decode applies
  `univNewlines` to every field value.
* A raised exception that would escape a handler is modelled as `none`
  in an `Option`-valued result.
-/

namespace RSVP

/-- ASCII whitespace as treated by Python `str.strip` and the regex
class `\s`. -/
def isPyWs (c : Char) : Bool :=
  c == ' ' || c == '\t' || c == '\n' || c == '\r' || c == '\x0b' || c == '\x0c'

def pyStripList (cs : List Char) : List Char :=
  ((cs.dropWhile isPyWs).reverse.dropWhile isPyWs).reverse

/-- Model of Python `str.strip()`. -/
def pyStrip (s : String) : String := ⟨pyStripList s.data⟩

def digitVal (c : Char) : Nat := c.toNat - 48

/-- Digits of an integer literal after the first digit: underscores are
only allowed singly, between two digits. -/
def pyDigitsGo (acc : Nat) : List Char → Option Nat
  | [] => some acc
  | '_' :: d :: cs =>
    if d.isDigit then pyDigitsGo (acc * 10 + digitVal d) cs else none
  | ['_'] => none
  | d :: cs =>
    if d.isDigit then pyDigitsGo (acc * 10 + digitVal d) cs else none

/-- A non-empty run of decimal digits with legal underscore separators. -/
def pyDigitsVal : List Char → Option Nat
  | [] => none
  | c :: cs => if c.isDigit then pyDigitsGo (digitVal c) cs else none

/-- Model of Python `int(s)` on strings: strip whitespace, optional single
sign, then a decimal digit run; `none` models a raised `ValueError`. -/
def pyIntParse (s : String) : Option Int :=
  match pyStripList s.data with
  | '-' :: cs => (pyDigitsVal cs).map (fun n => -(n : Int))
  | '+' :: cs => (pyDigitsVal cs).map (fun n => (n : Int))
  | cs => (pyDigitsVal cs).map (fun n => (n : Int))

/-- A character admissible in every chunk of the email pattern:
the regex class `[^@\s]`. -/
def emailChar (c : Char) : Bool := c != '@' && !(isPyWs c)

/-- Split a list at the first occurrence of `a`, returning the parts
before and after it; `none` when `a` does not occur. -/
def splitAtFirst (a : Char) : List Char → Option (List Char × List Char)
  | [] => none
  | c :: cs =>
    if c = a then some ([], cs)
    else
      match splitAtFirst a cs with
      | some (l, r) => some (c :: l, r)
      | none => none

/-- Model of `re.match(r"^[^@\s]+@[^@\s]+\.[^@\s]+$", s)` (app.py line 50):
the local part is the text before the first `@`; the rest must be free of
`@` and whitespace and contain a dot that is neither its first nor its
last character. Since `validate_form` strips the value first, the `$`
anchor coincides with end-of-string here. -/
def emailOk (s : String) : Bool :=
  match splitAtFirst '@' s.data with
  | none => false
  | some (l, t) =>
    !l.isEmpty && l.all emailChar && t.all emailChar &&
      ((t.drop 1).dropLast.contains '.')

/-- The raw submitted form: `form.get` yields `none` for absent fields. -/
structure Form where
  name : Option String
  email : Option String
  attending : Option String
  guests : Option String
  note : Option String
deriving DecidableEq, Repr

/-- The cleaned mapping returned by `validate_form`: exactly the five
keys of the dict literal at app.py lines 64-70. -/
structure Cleaned where
  name : String
  email : String
  attending : String
  guests : String
  note : String
deriving DecidableEq, Repr

/-- The guests branch of `validate_form` (app.py lines 55-61): parsed
value with range check, error flag, and the normalized value. -/
def guestsStep : Option Int → List (String × String) × Int
  | some v =>
    if v < 0 ∨ 5 < v then
      ([("guests", "The guest count must be between 0 and 5.")], 0)
    else ([], v)
  | none => ([("guests", "The guest count must be between 0 and 5.")], 0)

/-- Model of `validate_form` (app.py lines 41-70). The errors dict is
modelled as an association list in insertion order (each key is inserted
at most once). `attending or "no"` maps both an absent field and a
present empty string to `"no"`. -/
def validate_form (form : Form) : List (String × String) × Cleaned :=
  let name := pyStrip (form.name.getD "")
  let email := pyStrip (form.email.getD "")
  let attending := form.attending
  let guests := form.guests.getD "0"
  let e1 : List (String × String) :=
    if name.length < 2 then [("name", "Please enter your full name.")] else []
  let e2 : List (String × String) :=
    if emailOk email then [] else [("email", "Enter a valid email address.")]
  let e3 : List (String × String) :=
    if attending = some "yes" ∨ attending = some "no" then []
    else [("attending", "Let us know if you can attend.")]
  let ge := guestsStep (pyIntParse guests)
  let note := pyStrip (form.note.getD "")
  (e1 ++ e2 ++ e3 ++ ge.1,
   { name := name
     email := email
     attending :=
       match attending with
       | none => "no"
       | some a => if a = "" then "no" else a
     guests := toString ge.2
     note := note })

/-- The fixed persisted field set, in order (app.py line 11). -/
def FIELDNAMES : List String :=
  ["timestamp", "name", "email", "attending", "guests", "note"]

/-- A fully-populated RSVP record, as built by the submit handler
(timestamp plus the five cleaned fields). -/
structure Record where
  timestamp : String
  name : String
  email : String
  attending : String
  guests : String
  note : String
deriving DecidableEq, Repr

/-- The CSV row written for a record: its values in `FIELDNAMES` order,
as `csv.DictWriter(f, FIELDNAMES).writerow` does. -/
def toRow (r : Record) : List String :=
  [r.timestamp, r.name, r.email, r.attending, r.guests, r.note]

/-- The backing store: `none` when the file does not exist, otherwise the
list of its CSV rows (each row the list of its field strings). -/
abbrev Store := Option (List (List String))

/-- An association list standing for a Python dict with string values. -/
abbrev Dict := List (String × String)

/-- Model of `ensure_csv` (app.py lines 21-24): create the file with only
the header row when missing, touch nothing otherwise. -/
def ensure_csv (s : Store) : Store :=
  match s with
  | none => some [FIELDNAMES]
  | some c => some c

/-- `csv.DictReader` row semantics: the first file row is the header and
each later row is zipped with it. (`restkey`/`restval` padding for
length-mismatched rows would yield non-string values and is not modelled;
rows written by this application always match the header's length.) -/
def readDict (header row : List String) : Dict := header.zip row

/-- Universal-newlines translation of Python text mode without
`newline=""`: every `\r\n` pair and every lone `\r` becomes `\n`. -/
def univNewlinesList : List Char → List Char
  | [] => []
  | [c] => [if c = '\r' then '\n' else c]
  | c :: d :: cs =>
    if c = '\r' then
      if d = '\n' then '\n' :: univNewlinesList cs
      else '\n' :: univNewlinesList (d :: cs)
    else c :: univNewlinesList (d :: cs)

/-- Universal-newlines translation on a string (applied to each field
value when the CSV file is read without `newline=""`). -/
def univNewlines (s : String) : String := ⟨univNewlinesList s.data⟩

/-- Model of `read_rsvps` (app.py lines 27-31): ensure the file exists,
then read every data row as a dict keyed by the header row. The file is
opened without `newline=""` (app.py line 29), so universal-newlines
translation rewrites `\r\n` and lone `\r` to `\n` in the stream — per
field value, since quotes and commas separate fields in the stream.
Returns the records together with the store state after the call. -/
def read_rsvps (s : Store) : List Dict × Store :=
  let c := ensure_csv s
  (match c with
   | some (h :: rows) =>
     rows.map (fun row => readDict (h.map univNewlines) (row.map univNewlines))
   | _ => [],
   c)

/-- Model of `write_rsvp` (app.py lines 34-38): ensure the file exists,
then append the record's row at the end. -/
def write_rsvp (r : Record) (s : Store) : Store :=
  match ensure_csv s with
  | some c => some (c ++ [toRow r])
  | none => some [toRow r]

/-- Python dict item access `d[k]`: `none` models a raised `KeyError`. -/
def pyItem (d : Dict) (k : String) : Option String :=
  (d.find? (fun p => p.1 == k)).map (fun p => p.2)

/-- Option-valued map over a list, failing when any element fails: the
sequencing of expressions that may raise inside a handler. -/
def mapOpt (f : α → Option β) : List α → Option (List β)
  | [] => some []
  | a :: l =>
    match f a, mapOpt f l with
    | some b, some bs => some (b :: bs)
    | _, _ => none

/-- Insert `x` into a list sorted by `key` descending, before the first
element whose key is less than or equal to `key x`: the stable
descending insertion underlying `rows.sort(key=..., reverse=True)`.
Python compares strings by code points, which is the lexicographic order
of their character lists, so keys are compared as character lists. -/
def insertDescBy (key : α → String) (x : α) : List α → List α
  | [] => [x]
  | y :: ys =>
    if (key x).data < (key y).data then y :: insertDescBy key x ys else x :: y :: ys

/-- Model of `rows.sort(key=..., reverse=True)` (app.py line 104):
Python's sort is stable, and a stable descending sort is computed by this
insertion sort, which keeps equal keys in their original order. -/
def pySortDescBy (key : α → String) : List α → List α
  | [] => []
  | x :: xs => insertDescBy key x (pySortDescBy key xs)

/-- The aggregate totals dict of the listing (app.py lines 105-109). -/
structure Totals where
  yes : Nat
  no : Nat
  guests : Int
deriving DecidableEq, Repr

/-- Totals computation over the displayed rows: counts of yes/no
answers, and the sum of `int(r["guests"])` over the yes rows; `none`
models a `KeyError`/`ValueError` escaping the handler. -/
def totalsOf (rows : List Dict) : Option Totals :=
  match mapOpt (fun r => pyItem r "attending") rows with
  | none => none
  | some atts =>
    let yesRows := rows.filter (fun r => pyItem r "attending" == some "yes")
    match mapOpt (fun r => (pyItem r "guests").bind pyIntParse) yesRows with
    | none => none
    | some gs =>
      some { yes := (atts.filter (fun a => a == "yes")).length
             no := (atts.filter (fun a => a == "no")).length
             guests := gs.foldl (fun a b => a + b) 0 }

/-- An HTTP response of the listing/export handlers, as far as the core
is concerned. -/
inductive Response where
  | notFound (code : Nat) (msg : String)
  | listing (rows : List Dict) (totals : Totals)
  | download (content : List (List String))
deriving DecidableEq, Repr

/-- The response computed by the `/rsvps` handler from the records it
read (app.py lines 102-110): 404 when there are none, otherwise sort by
timestamp descending and render the rows plus totals. The timestamp keys
are looked up first (`list.sort` evaluates the key on every element), so
a missing key raises before sorting; `none` models an escaped
exception. -/
def listBody (rows : List Dict) : Option Response :=
  if rows.isEmpty then some (.notFound 404 "No RSVPs recorded yet.")
  else
    (mapOpt (fun r => (pyItem r "timestamp").map (fun t => (t, r))) rows).bind
      (fun keyed =>
        (totalsOf ((pySortDescBy Prod.fst keyed).map Prod.snd)).map
          (fun tot => .listing ((pySortDescBy Prod.fst keyed).map Prod.snd) tot))

/-- Model of the `/rsvps` handler `list_rsvps` (app.py lines 99-110):
read all records, then answer as `listBody` describes. -/
def list_rsvps (s : Store) : Option Response × Store :=
  (listBody (read_rsvps s).1, (read_rsvps s).2)

/-- Model of the `/rsvps.csv` handler `download_rsvps` (app.py lines
113-124): read all records, 404 when there are none, otherwise serve the
raw file content. (The timestamped download filename is presentation
detail outside the model.) -/
def download_rsvps (s : Store) : Option Response × Store :=
  let rs := read_rsvps s
  if rs.1.isEmpty then
    (some (.notFound 404 "No RSVPs recorded yet."), rs.2)
  else
    (some (.download ((rs.2).getD [])), rs.2)

/-- A record's dict form, keyed by the fixed field names: the shape of
every record `read_rsvps` returns from a store written by this
application (the dict a written record reads back as whenever its field
values contain no carriage return). -/
def recordDict (r : Record) : Dict := readDict FIELDNAMES (toRow r)

/-- Two concrete stored records used by witnesses. -/
def wRec1 : Record :=
  ⟨"2024-07-01T10:00:00", "Ann", "a@b.c", "yes", "2", ""⟩

def wRec2 : Record :=
  ⟨"2024-07-02T10:00:00", "Bob", "b@c.d", "no", "0", ""⟩

theorem recordDict_keys (x : Record) : (recordDict x).map Prod.fst = FIELDNAMES := rfl

theorem univNewlinesList_eq_self :
    ∀ cs : List Char, ('\r' : Char) ∉ cs → univNewlinesList cs = cs
  | [], _ => rfl
  | [c], h => by
    have hc : ¬ c = '\r' := fun he => h (by simp [he])
    simp [univNewlinesList, hc]
  | c :: d :: cs, h => by
    have hc : ¬ c = '\r' := fun he => h (by simp [he])
    have hrest : ('\r' : Char) ∉ d :: cs := fun hm => h (List.mem_cons_of_mem c hm)
    simp only [univNewlinesList, if_neg hc]
    rw [univNewlinesList_eq_self (d :: cs) hrest]

theorem univNewlines_eq_self (s : String) (h : ('\r' : Char) ∉ s.data) :
    univNewlines s = s := by
  show (⟨univNewlinesList s.data⟩ : String) = s
  rw [univNewlinesList_eq_self s.data h]

theorem univNewlines_FIELDNAMES : FIELDNAMES.map univNewlines = FIELDNAMES := by
  decide

/-- C4 counterexample: a record whose note contains a carriage return is
not returned string-for-string: `read_rsvps` opens the file without
`newline=""`, so universal-newlines translation rewrites the `\r\n`
inside the quoted field to `\n`, and the read-back note differs from the
appended one. -/
theorem store_append_read_roundtrip_counterexample :
    (read_rsvps (write_rsvp
        ⟨"t0", "Al", "a@b.c", "yes", "0", "line1\r\nline2"⟩
        (some [FIELDNAMES]))).1
      = [[("timestamp", "t0"), ("name", "Al"), ("email", "a@b.c"),
          ("attending", "yes"), ("guests", "0"), ("note", "line1\nline2")]]
    ∧ ("line1\nline2" : String) ≠ "line1\r\nline2" := by
  decide

/-- C4 (amended): on any reachable store state (missing, or header plus
rows written by this application), appending a record and reading back
yields the previously stored records unchanged and in order, with the
appended record last, every returned record keyed by exactly the fixed
six-field set; the appended record's values are read back with
universal-newline translation applied to each field — which is the
identity, hence a string-for-string round-trip, exactly whenever the
field values contain no carriage return. -/
theorem store_append_read_roundtrip :
    (∀ (recs : List Record) (r : Record),
      (read_rsvps (write_rsvp r (some (FIELDNAMES :: recs.map toRow)))).1
        = (read_rsvps (some (FIELDNAMES :: recs.map toRow))).1
          ++ [readDict FIELDNAMES ((toRow r).map univNewlines)]
      ∧ ∀ d ∈ (read_rsvps (write_rsvp r (some (FIELDNAMES :: recs.map toRow)))).1,
          d.map Prod.fst = FIELDNAMES)
    ∧ (∀ r : Record,
        (read_rsvps (write_rsvp r none)).1
          = (read_rsvps none).1 ++ [readDict FIELDNAMES ((toRow r).map univNewlines)])
    ∧ (∀ r : Record, (∀ f ∈ toRow r, ('\r' : Char) ∉ f.data) →
        (toRow r).map univNewlines = toRow r)
    ∧ (∀ r : Record,
        readDict FIELDNAMES ((toRow r).map univNewlines)
          = [("timestamp", univNewlines r.timestamp), ("name", univNewlines r.name),
             ("email", univNewlines r.email), ("attending", univNewlines r.attending),
             ("guests", univNewlines r.guests), ("note", univNewlines r.note)]) := by
  refine ⟨?_, fun r => rfl, ?_, fun r => rfl⟩
  · intro recs r
    constructor
    · simp [read_rsvps, write_rsvp, ensure_csv, readDict, univNewlines_FIELDNAMES]
    · intro d hd
      simp only [read_rsvps, write_rsvp, ensure_csv, List.cons_append,
        List.map_append, List.mem_append, List.map_map, List.mem_map,
        List.map_cons, List.map_nil, List.mem_singleton] at hd
      rcases hd with ⟨x, -, hx⟩ | hx
      · rw [← hx]; rfl
      · rw [hx]; rfl
  · intro r hf
    simp only [toRow, List.map_cons, List.map_nil]
    rw [univNewlines_eq_self r.timestamp (hf _ (by simp [toRow])),
      univNewlines_eq_self r.name (hf _ (by simp [toRow])),
      univNewlines_eq_self r.email (hf _ (by simp [toRow])),
      univNewlines_eq_self r.attending (hf _ (by simp [toRow])),
      univNewlines_eq_self r.guests (hf _ (by simp [toRow])),
      univNewlines_eq_self r.note (hf _ (by simp [toRow]))]

/-- C4 witness: a concrete carriage-return-free record, for which the
translation is the identity and the round-trip is string-for-string. -/
theorem store_append_read_roundtrip_witness :
    (∀ f ∈ toRow wRec1, ('\r' : Char) ∉ f.data)
    ∧ (toRow wRec1).map univNewlines = toRow wRec1 :=
  ⟨by decide, store_append_read_roundtrip.2.2.1 wRec1 (by decide)⟩

section StableSort

variable {α : Type} (key : α → String)

theorem mem_insertDescBy (x : α) :
    ∀ (l : List α) (y : α), y ∈ insertDescBy key x l ↔ y = x ∨ y ∈ l := by
  intro l
  induction l with
  | nil => intro y; simp only [insertDescBy, List.mem_singleton, List.not_mem_nil, or_false]
  | cons z zs ih =>
    intro y
    by_cases h : (key x).data < (key z).data
    · rw [insertDescBy, if_pos h, List.mem_cons, ih y, List.mem_cons]
      tauto
    · rw [insertDescBy, if_neg h, List.mem_cons, List.mem_cons]

theorem perm_insertDescBy (x : α) :
    ∀ l : List α, (insertDescBy key x l).Perm (x :: l) := by
  intro l
  induction l with
  | nil => exact List.Perm.refl _
  | cons z zs ih =>
    by_cases h : (key x).data < (key z).data
    · rw [insertDescBy, if_pos h]
      exact (ih.cons z).trans (List.Perm.swap x z zs)
    · rw [insertDescBy, if_neg h]

theorem pairwise_insertDescBy (x : α) :
    ∀ l : List α, l.Pairwise (fun a b => (key b).data ≤ (key a).data) →
      (insertDescBy key x l).Pairwise (fun a b => (key b).data ≤ (key a).data) := by
  intro l
  induction l with
  | nil => intro _; simp [insertDescBy]
  | cons z zs ih =>
    intro hp
    rw [List.pairwise_cons] at hp
    by_cases h : (key x).data < (key z).data
    · rw [insertDescBy, if_pos h, List.pairwise_cons]
      refine ⟨fun y hy => ?_, ih hp.2⟩
      rcases (mem_insertDescBy key x zs y).mp hy with hyx | hyz
      · rw [hyx]; exact le_of_lt h
      · exact hp.1 y hyz
    · rw [insertDescBy, if_neg h, List.pairwise_cons]
      refine ⟨fun y hy => ?_, List.pairwise_cons.mpr hp⟩
      rcases List.mem_cons.mp hy with hyz | hyzs
      · rw [hyz]; exact le_of_not_lt h
      · exact le_trans (hp.1 y hyzs) (le_of_not_lt h)

theorem filter_insertDescBy_of_eq (x : α) (p : α → Bool) (hpx : p x = true)
    (hmono : ∀ a b : α, (key a).data < (key b).data → p a = true → p b = false) :
    ∀ l : List α, (insertDescBy key x l).filter p = x :: l.filter p := by
  intro l
  induction l with
  | nil =>
    rw [insertDescBy, List.filter_cons_of_pos (by simp [hpx])]
  | cons z zs ih =>
    by_cases h : (key x).data < (key z).data
    · have hpz : p z = false := hmono x z h hpx
      rw [insertDescBy, if_pos h]
      rw [List.filter_cons_of_neg (by simp [hpz]), ih,
        List.filter_cons_of_neg (by simp [hpz])]
    · rw [insertDescBy, if_neg h, List.filter_cons_of_pos (by simp [hpx])]

theorem filter_insertDescBy_of_ne (x : α) (p : α → Bool) (hpx : p x = false) :
    ∀ l : List α, (insertDescBy key x l).filter p = l.filter p := by
  intro l
  induction l with
  | nil => simp [insertDescBy, hpx]
  | cons z zs ih =>
    by_cases h : (key x).data < (key z).data
    · rw [insertDescBy, if_pos h]
      by_cases hz : p z = true
      · rw [List.filter_cons_of_pos (by simp [hz]), ih,
          List.filter_cons_of_pos (by simp [hz])]
      · rw [List.filter_cons_of_neg (by simp_all), ih,
          List.filter_cons_of_neg (by simp_all)]
    · rw [insertDescBy, if_neg h, List.filter_cons_of_neg (by simp [hpx])]

theorem pySortDescBy_pairwise :
    ∀ l : List α, (pySortDescBy key l).Pairwise (fun a b => (key b).data ≤ (key a).data) := by
  intro l
  induction l with
  | nil => simp [pySortDescBy]
  | cons x xs ih => exact pairwise_insertDescBy key x _ ih

theorem pySortDescBy_perm : ∀ l : List α, (pySortDescBy key l).Perm l := by
  intro l
  induction l with
  | nil => simp [pySortDescBy]
  | cons x xs ih =>
    exact (perm_insertDescBy key x (pySortDescBy key xs)).trans (ih.cons x)

theorem pySortDescBy_filter_key (t : String) :
    ∀ l : List α,
      (pySortDescBy key l).filter (fun y => key y == t)
        = l.filter (fun y => key y == t) := by
  intro l
  induction l with
  | nil => rfl
  | cons x xs ih =>
    show (insertDescBy key x (pySortDescBy key xs)).filter _ = _
    by_cases hx : key x = t
    · rw [filter_insertDescBy_of_eq key x _ (by simp [hx])
        (fun a b hab ha => by
          have hat : key a = t := by simpa using ha
          simp only [beq_eq_false_iff_ne, ne_eq]
          intro hbt
          rw [hat, hbt] at hab
          exact lt_irrefl _ hab)]
      rw [ih, List.filter_cons_of_pos (by simp [hx])]
    · rw [filter_insertDescBy_of_ne key x _ (by simp [hx]), ih,
        List.filter_cons_of_neg (by simp [hx])]

end StableSort

theorem pySort_pairwise_str (l : List (String × Dict)) :
    (pySortDescBy Prod.fst l).Pairwise (fun a b => b.1 ≤ a.1) :=
  (pySortDescBy_pairwise Prod.fst l).imp (fun h => String.le_iff_toList_le.mpr h)

theorem keyed_spec :
    ∀ (rows : List Dict) (keyed : List (String × Dict)),
      mapOpt (fun r => (pyItem r "timestamp").map (fun t => (t, r))) rows
        = some keyed →
      keyed.map Prod.snd = rows
      ∧ ∀ p ∈ keyed, pyItem p.2 "timestamp" = some p.1 := by
  intro rows
  induction rows with
  | nil =>
    intro keyed h
    simp only [mapOpt] at h
    rw [← Option.some.inj h]
    exact ⟨rfl, by intro p hp; simp at hp⟩
  | cons r rs ih =>
    intro keyed h
    simp only [mapOpt] at h
    cases ht : pyItem r "timestamp" with
    | none => rw [ht] at h; simp at h
    | some t =>
      rw [ht] at h
      cases hrest : mapOpt (fun r => (pyItem r "timestamp").map (fun t => (t, r))) rs with
      | none => rw [hrest] at h; simp at h
      | some ks =>
        rw [hrest] at h
        rw [Option.map_some'] at h
        rw [← Option.some.inj h]
        obtain ⟨h1, h2⟩ := ih ks hrest
        refine ⟨by simp [h1], ?_⟩
        intro p hp
        rcases List.mem_cons.mp hp with hp1 | hp2
        · rw [hp1]; exact ht
        · exact h2 p hp2

/-- C7: the listing's sort (`rows.sort(key=r["timestamp"], reverse=True)`,
modelled by `pySortDescBy` over timestamp-keyed rows) arranges the rows
by timestamp descending, displays exactly the stored rows (a
permutation), and is stable: for every timestamp value, the subsequence
of rows carrying it is unchanged from append order; consequently every
listing response renders the read rows in timestamp-descending order,
as a permutation of them, with ties kept in original order. -/
theorem listing_sort_desc_stable :
    (∀ rows : List (String × Dict),
      (pySortDescBy Prod.fst rows).Pairwise (fun a b => b.1 ≤ a.1)
      ∧ (pySortDescBy Prod.fst rows).Perm rows
      ∧ ∀ t : String,
          (pySortDescBy Prod.fst rows).filter (fun y => y.1 == t)
            = rows.filter (fun y => y.1 == t))
    ∧ (∀ (rows rws : List Dict) (tot : Totals),
        listBody rows = some (.listing rws tot) →
        (rws.map (fun d => (pyItem d "timestamp").getD "")).Pairwise
            (fun a b => b ≤ a)
        ∧ rws.Perm rows
        ∧ ∀ t : String,
            rws.filter (fun d => pyItem d "timestamp" == some t)
              = rows.filter (fun d => pyItem d "timestamp" == some t)) := by
  constructor
  · intro rows
    exact ⟨pySort_pairwise_str rows, pySortDescBy_perm Prod.fst rows,
      fun t => pySortDescBy_filter_key Prod.fst t rows⟩
  · intro rows rws tot h
    unfold listBody at h
    by_cases he : rows.isEmpty = true
    · rw [if_pos he] at h
      simp at h
    · rw [if_neg he] at h
      cases hk : mapOpt (fun r => (pyItem r "timestamp").map (fun t => (t, r))) rows with
      | none => rw [hk] at h; simp at h
      | some keyed =>
        rw [hk, Option.some_bind] at h
        cases htot : totalsOf ((pySortDescBy Prod.fst keyed).map Prod.snd) with
        | none => rw [htot] at h; simp at h
        | some tot2 =>
          rw [htot, Option.map_some'] at h
          have hinj := Option.some.inj h
          have hrws : rws = (pySortDescBy Prod.fst keyed).map Prod.snd := by
            cases hinj; rfl
          obtain ⟨hmap, hinv⟩ := keyed_spec rows keyed hk
          have hinv2 : ∀ p ∈ pySortDescBy Prod.fst keyed,
              pyItem p.2 "timestamp" = some p.1 := fun p hp =>
            hinv p ((pySortDescBy_perm Prod.fst keyed).mem_iff.mp hp)
          refine ⟨?_, ?_, ?_⟩
          · rw [hrws, List.map_map]
            have hmc : ((pySortDescBy Prod.fst keyed).map
                ((fun d => (pyItem d "timestamp").getD "") ∘ Prod.snd))
                = (pySortDescBy Prod.fst keyed).map Prod.fst := by
              apply List.map_congr_left
              intro p hp
              simp [Function.comp, hinv2 p hp]
            rw [hmc]
            exact List.pairwise_map.mpr
              ((pySort_pairwise_str keyed).imp (fun hab => hab))
          · rw [hrws, ← hmap]
            exact ((pySortDescBy_perm Prod.fst keyed).map Prod.snd)
          · intro t
            have hfc : ∀ l2 : List (String × Dict),
                (∀ p ∈ l2, pyItem p.2 "timestamp" = some p.1) →
                l2.filter ((fun d => pyItem d "timestamp" == some t) ∘ Prod.snd)
                  = l2.filter (fun y => y.1 == t) := by
              intro l2 hl2
              apply List.filter_congr
              intro p hp
              simp only [Function.comp, hl2 p hp]
              show (some p.1 == some t) = (p.1 == t)
              rfl
            rw [hrws, List.filter_map, hfc _ hinv2,
              pySortDescBy_filter_key Prod.fst t keyed, ← hfc _ hinv,
              ← List.filter_map, hmap]

/-- C7 witness: on two concrete stored rows, the listing response is as
computed and its rows come out in timestamp-descending order. -/
theorem listing_sort_desc_stable_witness :
    listBody [recordDict wRec1, recordDict wRec2]
      = some (.listing [recordDict wRec2, recordDict wRec1] ⟨1, 1, 2⟩)
    ∧ ([recordDict wRec2, recordDict wRec1].map
        (fun d => (pyItem d "timestamp").getD "")).Pairwise (fun a b => b ≤ a) :=
  ⟨by decide, (listing_sort_desc_stable.2 [recordDict wRec1, recordDict wRec2]
      [recordDict wRec2, recordDict wRec1] ⟨1, 1, 2⟩ (by decide)).1⟩

theorem pyItem_recordDict_attending (r : Record) :
    pyItem (recordDict r) "attending" = some r.attending := rfl

theorem pyItem_recordDict_guests (r : Record) :
    pyItem (recordDict r) "guests" = some r.guests := rfl

theorem pyItem_recordDict_timestamp (r : Record) :
    pyItem (recordDict r) "timestamp" = some r.timestamp := rfl

theorem mapOpt_attending (recs : List Record) :
    mapOpt (fun d => pyItem d "attending") (recs.map recordDict)
      = some (recs.map (fun r => r.attending)) := by
  induction recs with
  | nil => rfl
  | cons r rs ih =>
    simp only [List.map_cons, mapOpt, pyItem_recordDict_attending, ih]

theorem filter_attending_yes (recs : List Record) :
    (recs.map recordDict).filter (fun d => pyItem d "attending" == some "yes")
      = (recs.filter (fun r => r.attending == "yes")).map recordDict := by
  rw [List.filter_map]
  rfl

theorem mapOpt_guests (l : List Record)
    (h : ∀ r ∈ l, (pyIntParse r.guests).isSome = true) :
    mapOpt (fun d => (pyItem d "guests").bind pyIntParse) (l.map recordDict)
      = some (l.map (fun r => (pyIntParse r.guests).getD 0)) := by
  induction l with
  | nil => rfl
  | cons r rs ih =>
    have hr := h r (List.mem_cons_self r rs)
    obtain ⟨v, hv⟩ := Option.isSome_iff_exists.mp hr
    have hrest := ih (fun x hx => h x (List.mem_cons_of_mem r hx))
    simp only [List.map_cons, mapOpt, pyItem_recordDict_guests, Option.some_bind,
      hv, hrest, Option.getD_some]

/-- The spec's total of confirmed guests: the sum of the guest counts of
the records whose attending value is yes, and of those only. -/
def specConfirmedGuests (recs : List Record) : Int :=
  ((recs.filter (fun r => r.attending == "yes")).map
    (fun r => (pyIntParse r.guests).getD 0)).foldl (fun a b => a + b) 0

/-- C6: for stored records (whose guest counts parse as integers, as all
persisted records do), the listing's aggregate report counts the yes
answers, counts the no answers, and sums the guest counts over the yes
records only, excluding the guest counts of no records. -/
theorem listing_totals_correct (recs : List Record)
    (h : ∀ r ∈ recs, r.attending = "yes" → (pyIntParse r.guests).isSome = true) :
    totalsOf (recs.map recordDict)
      = some { yes := (recs.filter (fun r => r.attending == "yes")).length
               no := (recs.filter (fun r => r.attending == "no")).length
               guests := specConfirmedGuests recs } := by
  have hyes : ∀ r ∈ recs.filter (fun r => r.attending == "yes"),
      (pyIntParse r.guests).isSome = true := by
    intro r hr
    have hm := List.mem_of_mem_filter hr
    have ha := List.of_mem_filter hr
    exact h r hm (by simpa using ha)
  simp only [totalsOf, mapOpt_attending recs, filter_attending_yes recs,
    mapOpt_guests (recs.filter (fun r => r.attending == "yes")) hyes,
    specConfirmedGuests, List.filter_map, Function.comp, List.length_map]
  rfl

/-- C6 witness: the spec's aggregate scenario, records
yes/2, no/3, yes/1, yields counts 2 and 1 and 3 confirmed guests. -/
theorem listing_totals_correct_witness :
    totalsOf
        ([⟨"t1", "A", "a@b.c", "yes", "2", ""⟩,
          ⟨"t2", "B", "b@c.d", "no", "3", ""⟩,
          ⟨"t3", "C", "c@d.e", "yes", "1", ""⟩].map recordDict)
      = some { yes := 2, no := 1, guests := 3 } := by
  rw [listing_totals_correct _ (by decide)]
  decide

end RSVP

example : RSVP.pyIntParse "7" = some 7 := by decide
example : RSVP.pyIntParse " -3 " = some (-3) := by decide
example : RSVP.pyIntParse "abc" = none := by decide
example : RSVP.pyIntParse "1_0" = some 10 := by decide
example : RSVP.pyIntParse "1__0" = none := by decide
example : RSVP.pyIntParse "" = none := by decide
example : RSVP.emailOk "a@b.c" = true := by decide
example : RSVP.emailOk "a@b" = false := by decide
example : RSVP.emailOk "a b@c.d" = false := by decide
example : RSVP.emailOk "@c.d" = false := by decide
example : RSVP.emailOk "a@.c" = false := by decide
example : RSVP.pyStrip "  hi\n" = "hi" := by decide
example : RSVP.univNewlines "line1\r\nline2" = "line1\nline2" := by decide
example : RSVP.univNewlines "a\rb" = "a\nb" := by decide
example : RSVP.univNewlines "a\r" = "a\n" := by decide
example : RSVP.univNewlines "\r\r\n" = "\n\n" := by decide
example : RSVP.univNewlines "a\nb" = "a\nb" := by decide
example :
    (RSVP.validate_form ⟨some "Al", some "a@b.c", some "yes", some "2", none⟩).1 = [] := by
  decide
example :
    (RSVP.validate_form ⟨some "Al", some "a@b.c", some "yes", some "7", none⟩).2.guests
      = "0" := by
  decide

namespace RSVP

/-- The guests rule's violation condition, shared by the code branch at
app.py lines 55-61 and the spec's rule 4: the raw value fails integer
parse, or parses outside `[0, 5]`. -/
def guestsViolated (g : String) : Bool :=
  match pyIntParse g with
  | some v => decide (v < 0 ∨ 5 < v)
  | none => true

/-- Following the spec's words for the cleaned guest count: the parsed
integer as a string, or `"0"` when the rule is violated; an absent raw
value defaults to `"0"`. -/
def specGuestsClean (raw : Option String) : String :=
  match pyIntParse (raw.getD "0") with
  | some v => if v < 0 ∨ 5 < v then "0" else toString v
  | none => "0"

/-- Following the spec's words for the cleaned mapping, with the
attending rule amended to match the code: the raw attending value when
the field is present and non-empty, else `"no"`. -/
def specCleanedOf (f : Form) : Cleaned :=
  { name := pyStrip (f.name.getD "")
    email := pyStrip (f.email.getD "")
    attending :=
      match f.attending with
      | none => "no"
      | some a => if a = "" then "no" else a
    guests := specGuestsClean f.guests
    note := pyStrip (f.note.getD "") }

theorem guestsStep_fst (p : Option Int) (g : String) (h : pyIntParse g = p) :
    (guestsStep p).1 =
      if guestsViolated g = true then
        [("guests", "The guest count must be between 0 and 5.")]
      else [] := by
  cases p with
  | none => simp [guestsStep, guestsViolated, h]
  | some v =>
    by_cases hv : v < 0 ∨ 5 < v <;>
      simp [guestsStep, guestsViolated, h, hv]

theorem guestsStep_snd (p : Option Int) (g : String) (h : pyIntParse g = p) :
    toString (guestsStep p).2 = specGuestsClean (some g) := by
  cases p with
  | none =>
    simp [guestsStep, specGuestsClean, h]
    decide
  | some v =>
    by_cases hv : v < 0 ∨ 5 < v <;>
      (simp [guestsStep, specGuestsClean, h, hv]; try decide)

theorem specGuestsClean_getD (o : Option String) :
    specGuestsClean (some (o.getD "0")) = specGuestsClean o := by
  cases o <;> rfl

theorem validate_form_errors_eq (f : Form) :
    (validate_form f).1 =
      (if (pyStrip (f.name.getD "")).length < 2 then
        [("name", "Please enter your full name.")] else [])
      ++ (if emailOk (pyStrip (f.email.getD "")) then []
          else [("email", "Enter a valid email address.")])
      ++ (if f.attending = some "yes" ∨ f.attending = some "no" then []
          else [("attending", "Let us know if you can attend.")])
      ++ (if guestsViolated (f.guests.getD "0") then
            [("guests", "The guest count must be between 0 and 5.")] else []) := by
  simp only [validate_form]
  rw [guestsStep_fst (pyIntParse (f.guests.getD "0")) (f.guests.getD "0") rfl]

theorem validate_form_guests_mem (f : Form) :
    (("guests", "The guest count must be between 0 and 5.") ∈ (validate_form f).1)
      ↔ guestsViolated (f.guests.getD "0") = true := by
  rw [validate_form_errors_eq f]
  split_ifs with h1 h2 h3 h4 <;> simp_all

/-- C1: the errors mapping of `validate_form` is exactly the accumulated
list of violated rules with their fixed messages, each check running
independently of the others; in particular the errors are empty iff all
four rules are satisfied. -/
theorem validate_errors_exact (f : Form) :
    ((validate_form f).1 =
      (if (pyStrip (f.name.getD "")).length < 2 then
        [("name", "Please enter your full name.")] else [])
      ++ (if emailOk (pyStrip (f.email.getD "")) then []
          else [("email", "Enter a valid email address.")])
      ++ (if f.attending = some "yes" ∨ f.attending = some "no" then []
          else [("attending", "Let us know if you can attend.")])
      ++ (if guestsViolated (f.guests.getD "0") then
            [("guests", "The guest count must be between 0 and 5.")] else []))
    ∧ ((validate_form f).1 = [] ↔
        ¬(pyStrip (f.name.getD "")).length < 2
        ∧ emailOk (pyStrip (f.email.getD "")) = true
        ∧ (f.attending = some "yes" ∨ f.attending = some "no")
        ∧ guestsViolated (f.guests.getD "0") = false) := by
  refine ⟨validate_form_errors_eq f, ?_⟩
  rw [validate_form_errors_eq f]
  split_ifs with h1 h2 h3 h4 <;> simp_all

/-- C2: the guests handling of `validate_form`: an absent field defaults
to `"0"`; a value that fails integer parse or parses outside `[0, 5]`
records the fixed error and forces the cleaned count to `"0"`; otherwise
no guests error is recorded and the cleaned count is the decimal string
of the parsed integer. (`validate_form` is a total Lean function, so no
exception escapes it; the `ValueError` of `int` is consumed by the
`except` branch, modelled by the `none` case of `pyIntParse`.) -/
theorem validate_guests_normalized (f : Form) :
    (validate_form f).2.guests = specGuestsClean f.guests
    ∧ (("guests", "The guest count must be between 0 and 5.") ∈ (validate_form f).1
        ↔ guestsViolated (f.guests.getD "0") = true)
    ∧ (validate_form { f with guests := none }).2.guests = "0"
    ∧ ("guests", "The guest count must be between 0 and 5.")
        ∉ (validate_form { f with guests := none }).1 := by
  have hclean : ∀ g : Form, (validate_form g).2.guests = specGuestsClean g.guests := by
    intro g
    simp only [validate_form]
    rw [guestsStep_snd (pyIntParse (g.guests.getD "0")) (g.guests.getD "0") rfl,
      specGuestsClean_getD]
  refine ⟨hclean f, validate_form_guests_mem f, ?_, ?_⟩
  · rw [hclean { f with guests := none }]
    show specGuestsClean none = "0"
    decide
  · rw [validate_form_guests_mem { f with guests := none }]
    show ¬ guestsViolated ((none : Option String).getD "0") = true
    decide

/-- C3 counterexample: on a form whose `attending` field is present but
empty, the claim as stated predicts a cleaned `attending` equal to the
raw value `""`, but `attending or "no"` in the code yields `"no"`. -/
theorem validate_cleaned_attending_counterexample :
    ((⟨some "Al", some "a@b.c", some "", some "0", some "hi"⟩ : Form)).attending
        = some ""
    ∧ (validate_form ⟨some "Al", some "a@b.c", some "", some "0", some "hi"⟩).2.attending
        = "no"
    ∧ (validate_form ⟨some "Al", some "a@b.c", some "", some "0", some "hi"⟩).2.attending
        ≠ "" := by
  decide

/-- C3 (amended): for every raw input, also when errors are non-empty,
the cleaned mapping holds exactly the five fields: trimmed name, trimmed
email, the raw attending value when present and non-empty (else `"no"`),
the string form of the normalized guest count, and the trimmed note. -/
theorem validate_cleaned_fields (f : Form) :
    (validate_form f).2 = specCleanedOf f := by
  have hg : toString (guestsStep (pyIntParse (f.guests.getD "0"))).2
      = specGuestsClean f.guests := by
    rw [guestsStep_snd (pyIntParse (f.guests.getD "0")) (f.guests.getD "0") rfl,
      specGuestsClean_getD]
  simp [validate_form, specCleanedOf, Cleaned.mk.injEq, hg]

/-- The email shape in the spec's words: one-or-more non-at/non-space
characters, an at sign, one-or-more such characters, a literal dot, then
one-or-more such characters, covering the whole string. -/
def SpecEmailShape (s : String) : Prop :=
  ∃ l m r : List Char,
    s.data = l ++ '@' :: (m ++ '.' :: r)
    ∧ l ≠ [] ∧ m ≠ [] ∧ r ≠ []
    ∧ (∀ c ∈ l, emailChar c) ∧ (∀ c ∈ m, emailChar c) ∧ (∀ c ∈ r, emailChar c)

theorem splitAtFirst_eq_some {a : Char} :
    ∀ {cs l r : List Char}, splitAtFirst a cs = some (l, r) →
      cs = l ++ a :: r ∧ a ∉ l := by
  intro cs
  induction cs with
  | nil => intro l r h; simp [splitAtFirst] at h
  | cons c cs ih =>
    intro l r h
    by_cases hc : c = a
    · simp [splitAtFirst, hc] at h
      simp [hc, h.1, h.2]
    · simp only [splitAtFirst, if_neg hc] at h
      cases hs : splitAtFirst a cs with
      | none => rw [hs] at h; simp at h
      | some p =>
        rw [hs] at h
        simp at h
        obtain ⟨hl, hr⟩ := h
        obtain ⟨h1, h2⟩ := ih hs
        subst hl hr
        constructor
        · simp [h1]
        · simp [h2]
          exact fun he => hc he.symm

theorem splitAtFirst_eq_none {a : Char} :
    ∀ {cs : List Char}, splitAtFirst a cs = none → a ∉ cs := by
  intro cs
  induction cs with
  | nil => intro _; simp
  | cons c cs ih =>
    intro h
    by_cases hc : c = a
    · simp [splitAtFirst, hc] at h
    · simp only [splitAtFirst, if_neg hc] at h
      cases hs : splitAtFirst a cs with
      | none =>
        simp [List.mem_cons]
        exact ⟨fun he => hc he.symm, ih hs⟩
      | some p => rw [hs] at h; simp at h

theorem splitAtFirst_of_append {a : Char} :
    ∀ {l : List Char}, a ∉ l → ∀ r : List Char,
      splitAtFirst a (l ++ a :: r) = some (l, r) := by
  intro l
  induction l with
  | nil => intro _ r; simp [splitAtFirst]
  | cons c l ih =>
    intro h r
    have hc : ¬ c = a := fun he => h (by simp [he])
    have hl : a ∉ l := fun hm => h (by simp [hm])
    have hi := ih hl r
    simp only [List.cons_append, splitAtFirst, if_neg hc, List.append_eq]
    rw [hi]

theorem mem_dropLast_decomp {x : α} :
    ∀ {l : List α}, x ∈ l.dropLast → ∃ s u, l = s ++ x :: u ∧ u ≠ [] := by
  intro l hx
  have hne : l ≠ [] := by
    intro he
    rw [he] at hx
    simp at hx
  obtain ⟨s, u, hsu⟩ := List.append_of_mem hx
  refine ⟨s, u ++ [l.getLast hne], ?_, by simp⟩
  calc l = l.dropLast ++ [l.getLast hne] := (List.dropLast_append_getLast hne).symm
    _ = (s ++ x :: u) ++ [l.getLast hne] := by rw [hsu]
    _ = s ++ x :: (u ++ [l.getLast hne]) := by simp

theorem middle_dot_iff (t : List Char) :
    '.' ∈ (t.drop 1).dropLast ↔
      ∃ m r : List Char, t = m ++ '.' :: r ∧ m ≠ [] ∧ r ≠ [] := by
  constructor
  · intro h
    cases t with
    | nil => simp at h
    | cons c t =>
      simp only [List.drop_succ_cons, List.drop_zero] at h
      obtain ⟨s, u, hsu, hu⟩ := mem_dropLast_decomp h
      exact ⟨c :: s, u, by simp [hsu], by simp, hu⟩
  · rintro ⟨m, r, ht, hm, hr⟩
    cases m with
    | nil => exact absurd rfl hm
    | cons c m =>
      subst ht
      simp only [List.cons_append, List.drop_succ_cons, List.drop_zero]
      rw [List.dropLast_append_of_ne_nil _ (by simp)]
      refine List.mem_append_right _ ?_
      rw [List.dropLast_cons_of_ne_nil hr]
      exact List.mem_cons_self _ _

theorem emailOk_iff (s : String) : emailOk s = true ↔ SpecEmailShape s := by
  unfold emailOk
  cases h : splitAtFirst '@' s.data with
  | none =>
    simp only [Bool.false_eq_true, false_iff]
    rintro ⟨l, m, r, hs, -, -, -, -, -, -⟩
    exact splitAtFirst_eq_none h (by rw [hs]; simp)
  | some p =>
    obtain ⟨l, t⟩ := p
    obtain ⟨hst, hnl⟩ := splitAtFirst_eq_some h
    simp only [Bool.and_eq_true, Bool.not_eq_true', List.isEmpty_eq_false,
      List.all_eq_true, List.contains_iff_exists_mem_beq]
    constructor
    · rintro ⟨⟨⟨hne, hl⟩, ht⟩, hdot⟩
      have hdot2 : '.' ∈ (t.drop 1).dropLast := by
        obtain ⟨c, hc, hbeq⟩ := hdot
        have hcc : '.' = c := by simpa using hbeq
        rwa [hcc]
      obtain ⟨m, r, htd, hm, hr⟩ := (middle_dot_iff t).mp hdot2
      subst htd
      exact ⟨l, m, r, hst, hne, hm, hr, hl,
        fun c hc => ht c (by simp [hc]),
        fun c hc => ht c (by simp [hc])⟩
    · rintro ⟨l2, m, r, hs2, hl2, hm, hr, hcl, hcm, hcr⟩
      have hnl2 : '@' ∉ l2 := by
        intro hmem
        have hbad := hcl '@' hmem
        simp [emailChar] at hbad
      have hsp : splitAtFirst '@' s.data = some (l2, m ++ '.' :: r) := by
        rw [hs2]
        exact splitAtFirst_of_append hnl2 (m ++ '.' :: r)
      rw [h] at hsp
      have hpq := Option.some.inj hsp
      have he1 : l = l2 := congrArg Prod.fst hpq
      have he2 : t = m ++ '.' :: r := congrArg Prod.snd hpq
      refine ⟨⟨⟨?_, ?_⟩, ?_⟩, ?_⟩
      · rw [he1]; exact hl2
      · intro c hc; rw [he1] at hc; exact hcl c hc
      · intro c hc
        rw [he2] at hc
        rcases List.mem_append.mp hc with h1 | h2
        · exact hcm c h1
        · rcases List.mem_cons.mp h2 with h3 | h4
          · simp [h3, emailChar, isPyWs]
          · exact hcr c h4
      · refine ⟨'.', ?_, by simp⟩
        rw [he2]
        exact (middle_dot_iff _).mpr ⟨m, r, rfl, hm, hr⟩

theorem validate_form_email_mem (f : Form) :
    (("email", "Enter a valid email address.") ∈ (validate_form f).1)
      ↔ emailOk (pyStrip (f.email.getD "")) = false := by
  rw [validate_form_errors_eq f]
  split_ifs with h1 h2 h3 h4 <;> simp_all

/-- C5: `validate_form` reports the email error exactly when the trimmed
value does not have the shape one-or-more non-at/non-space characters,
an at sign, one-or-more such characters, a literal dot, and one-or-more
such characters, start to end; the scanner `emailOk` modelling the regex
is proved equivalent to that declarative shape, and the spec's boundary
examples behave as stated. -/
theorem validate_email_pattern :
    (∀ s : String, emailOk s = true ↔ SpecEmailShape s)
    ∧ (∀ f : Form,
        (("email", "Enter a valid email address.") ∈ (validate_form f).1
          ↔ ¬ SpecEmailShape (pyStrip (f.email.getD ""))))
    ∧ SpecEmailShape "a@b.c"
    ∧ ¬ SpecEmailShape "a@b"
    ∧ ¬ SpecEmailShape "a b@c.d"
    ∧ ¬ SpecEmailShape "@c.d" := by
  refine ⟨emailOk_iff, ?_, ?_, ?_, ?_, ?_⟩
  · intro f
    rw [validate_form_email_mem f, ← emailOk_iff]
    simp
  · rw [← emailOk_iff]; decide
  · rw [← emailOk_iff]; decide
  · rw [← emailOk_iff]; decide
  · rw [← emailOk_iff]; decide

/-- C8: `ensure_csv` is idempotent: on a missing store it creates exactly
the header-only store (the fixed field names, no data rows); on an
existing store it returns the content unchanged, so any number of calls
leaves the store identical. -/
theorem ensure_csv_idempotent :
    ensure_csv none = some [FIELDNAMES]
    ∧ (∀ c : List (List String), ensure_csv (some c) = some c)
    ∧ (∀ s : Store, ensure_csv (ensure_csv s) = ensure_csv s) := by
  refine ⟨rfl, fun c => rfl, fun s => ?_⟩
  cases s <;> rfl

/-- C9: on an initialized but empty store (header row only), `read_rsvps`
returns the empty sequence, and both the listing and the export handler
answer 404 with the message of app.py lines 103/117 instead of rendering. -/
theorem empty_store_not_found :
    (read_rsvps (ensure_csv none)).1 = []
    ∧ (list_rsvps (ensure_csv none)).1
        = some (.notFound 404 "No RSVPs recorded yet.")
    ∧ (download_rsvps (ensure_csv none)).1
        = some (.notFound 404 "No RSVPs recorded yet.") := by
  exact ⟨rfl, rfl, rfl⟩

/-- C10: both store operations self-initialize on a missing file:
`read_rsvps` creates the header-only store and returns the empty
sequence; `write_rsvp` creates the store and appends the record after
the header. -/
theorem store_ops_self_initialize :
    read_rsvps none = ([], some [FIELDNAMES])
    ∧ ∀ r : Record, write_rsvp r none = some [FIELDNAMES, toRow r] := by
  exact ⟨rfl, fun r => rfl⟩

end RSVP
